import Mathlib

/-!
A shallow embedding of the tgo SSA-to-LLVM lowering engine (tgo.go),
with theorems checking the natural-language specification against it.

The embedding follows the source function by function:

* `parseConst` mirrors `Compiler.parseConst` (string and integer constants);
* `createGlobalStringPtr` mirrors the LLVM builder API
  `CreateGlobalStringPtr`, which creates a global byte array holding the
  string *with a NUL terminator appended* and returns a pointer to it;
* `getPackageRelativeName` mirrors `Compiler.getPackageRelativeName`;
* `parseBuiltin` mirrors the print/println loop of `Compiler.parseBuiltin`,
  recording the runtime print calls it emits in order;
* `parsePackageEvents` / `parseEvents` mirror the two member loops of
  `Compiler.Parse` (declaration pass, then definition pass, per package),
  recording one event per declaration or function-body lowering;
* `addIncomings` mirrors the pending-φ resolution sweep at the end of
  `Compiler.parseFunc`;
* `compileTrace`, `emitObjectRet`, `emitObjectFile` and `compileObjectFile`
  mirror the `Compile` driver and `Compiler.EmitObject`, with the outcomes
  of the external effects (buffer emission, open, write, close) passed in
  as parameters.

Go strings are Lean `String`s; where Go sorts or scans bytes the model
works on the character list of the string.
-/

namespace Tgo

/-- Byte-wise (here: character-wise) lexicographic order on names, as Go
compares strings. -/
def charsLe : List Char → List Char → Bool
  | [], _ => true
  | _ :: _, [] => false
  | a :: as, b :: bs =>
    if a.val < b.val then true
    else if b.val < a.val then false
    else charsLe as bs

/-- Go string order, used by `sort.Strings`. -/
def goStrLe (a b : String) : Bool :=
  charsLe a.toList b.toList

/-- Insertion step of the member-name sort. -/
def insertName (s : String) : List String → List String
  | [] => [s]
  | t :: ts => if goStrLe s t then s :: t :: ts else t :: insertName s ts

/-- `sort.Strings`: the member names of a package are sorted ascending
before either pass walks them. -/
def sortStrings : List String → List String
  | [] => []
  | s :: ss => insertName s (sortStrings ss)

/-- LLVM IR types, as the compiler builds them (`llvm.Int1Type`,
`llvm.Int8Type`, `llvm.Int32Type`, pointer and struct types). -/
inductive LLVMType where
  | int1
  | int8
  | int32
  | voidTy
  | ptr (elem : LLVMType)
  | struct (fields : List LLVMType) (packed : Bool)

/-- `c.intType`: NewCompiler pins the Go `int` type to 32 bits. -/
def intType : LLVMType := .int32

/-- `c.stringLenType`, also pinned to 32 bits in NewCompiler. -/
def stringLenType : LLVMType := .int32

/-- `c.stringType`: the length-prefixed string struct built in NewCompiler. -/
def stringType : LLVMType := .struct [stringLenType, .ptr .int8] false

/-- Bit width of an integer IR type (zero for non-integer types, which
never reach `constInt` in this model). -/
def widthOf : LLVMType → Nat
  | .int1 => 1
  | .int8 => 8
  | .int32 => 32
  | _ => 0

/-- A string-data global created by `CreateGlobalStringPtr`: its requested
name and the bytes of its initializer. -/
structure StrGlobal where
  name : String
  bytes : List Nat

/-- LLVM IR constants as far as parseConst produces them: integer
constants, pointers to string globals, and constant structs. -/
inductive LLVMConst where
  | int (ty : LLVMType) (value : Nat)
  | globalPtr (g : StrGlobal)
  | struct (fields : List LLVMConst)

/-- The go/constant values `Compiler.parseConst` dispatches on: a string
(its bytes), an arbitrary-precision integer, or any other kind. -/
inductive ConstValue where
  | str (bytes : List Nat)
  | int (value : Int)
  | other
deriving DecidableEq

/-- `constant.Int64Val`: the value reduced to a signed 64-bit integer (the
low 64 bits, two's complement); the caller discards the exactness flag. -/
def int64Val (v : Int) : Int :=
  let m := v % (2 : Int) ^ 64
  if m < 2 ^ 63 then m else m - 2 ^ 64

/-- Go's `uint64(n)` conversion: the two's-complement bit pattern of a
signed value, as a natural number below 2^64. -/
def toUint64 (n : Int) : Nat := (n % (2 : Int) ^ 64).toNat

/-- `llvm.ConstInt`: an integer constant of the given type; the 64-bit
value is truncated to the type's bit width. -/
def constInt (ty : LLVMType) (value : Nat) : LLVMConst :=
  .int ty (value % 2 ^ widthOf ty)

/-- `llvm.Builder.CreateGlobalStringPtr str name`: creates a global byte
array holding `str` with a NUL terminator appended (LLVM's
`CreateGlobalString` is called with `AddNull = true`) and returns a
pointer to its first byte. -/
def createGlobalStringPtr (bytes : List Nat) (name : String) : StrGlobal :=
  ⟨name, bytes ++ [0]⟩

/-- `Compiler.parseConst`: a string constant becomes a constant struct of
its length and a pointer to a `.str` global; an integer constant is taken
through `constant.Int64Val`, converted with `uint64`, and emitted at the
32-bit `c.intType`; anything else is an error. -/
def parseConst : ConstValue → Except String LLVMConst
  | .str bytes =>
    let strLen := constInt stringLenType (toUint64 (Int.ofNat bytes.length))
    let strPtr := LLVMConst.globalPtr (createGlobalStringPtr bytes ".str")
    .ok (.struct [strLen, strPtr])
  | .int v => .ok (constInt intType (toUint64 (int64Val v)))
  | .other => .error "todo: unknown constant"

/-- Projection used to state facts about the string-data global inside a
lowered string constant: the bytes of the `.str` global, if the result has
the shape parseConst gives string constants. -/
def strGlobalBytes : Except String LLVMConst → Option (List Nat)
  | .ok (.struct [_, .globalPtr g]) => some g.bytes
  | _ => none

/-- Projection: the requested name of the string-data global. -/
def strGlobalName : Except String LLVMConst → Option String
  | .ok (.struct [_, .globalPtr g]) => some g.name
  | _ => none

/-- Projection: the value of the length field (field 0) of a lowered
string constant. -/
def strLenField : Except String LLVMConst → Option Nat
  | .ok (.struct [.int _ n, _]) => some n
  | _ => none

/-- A pending φ recorded during instruction lowering (`Phi` in the
source): the SSA φ's incoming edge values (as SSA value ids) together with
the predecessor list of the φ's block (as SSA block ids). -/
structure PendingPhi where
  edges : List Nat
  preds : List Nat

/-- A lowering frame (`Frame` in the source): package prefix, qualified
function name, the SSA-block-to-IR-block map built by the block pre-pass,
and the pending φ list. -/
structure Frame where
  pkgPrefix : String
  name : String
  blocks : Nat → Nat
  phis : List PendingPhi

/-- `Compiler.getPackageRelativeName`: a name already containing a dot is
returned unchanged (`strings.IndexByte(name, '.') == -1` fails); otherwise
the frame's package prefix and a dot are prepended. -/
def getPackageRelativeName (frame : Frame) (name : String) : String :=
  if name.toList.contains '.' = false then frame.pkgPrefix ++ "." ++ name
  else name

/-- The loop body of the φ-resolution sweep in `Compiler.parseFunc`, for
one pending φ: for each edge index `i`, the lowered edge value is paired
with the IR block mapped from predecessor `i` of the φ's block.
`blocks` is the frame's block map and `lower` stands for
`c.parseExpr frame`. -/
def addIncomingsLoop (blocks : Nat → Nat) (lower : Nat → Nat)
    (preds : List Nat) : Nat → List Nat → List (Nat × Nat)
  | _, [] => []
  | i, e :: es =>
    (lower e, blocks (preds.getD i 0)) :: addIncomingsLoop blocks lower preds (i + 1) es

/-- The incoming (value, block) pairs one pending φ holds after the
resolution sweep: the φ was created empty by `CreatePHI`, and the sweep
adds one pair per edge. -/
def addIncomings (blocks : Nat → Nat) (lower : Nat → Nat) (phi : PendingPhi) :
    List (Nat × Nat) :=
  addIncomingsLoop blocks lower phi.preds 0 phi.edges

/-- The whole sweep at the end of `Compiler.parseFunc`: every pending φ of
the frame is resolved. -/
def resolvePhis (blocks : Nat → Nat) (lower : Nat → Nat)
    (phis : List PendingPhi) : List (List (Nat × Nat)) :=
  phis.map (addIncomings blocks lower)

/-- A package member, as `Compiler.Parse` dispatches on it: a function
(with or without a body), a named constant, a global variable, or a type. -/
inductive Member where
  | function (hasBlocks : Bool)
  | namedConst (value : ConstValue)
  | global
  | typ
deriving DecidableEq

/-- An SSA package: its import path, its Go-level name, and its member
map (modelled as an association list from member name to member). -/
structure GoPackage where
  path : String
  pkgName : String
  members : List (String × Member)

/-- The package prefix computed inside the declaration loop of
`Compiler.Parse`: the import path, overwritten with the literal "main"
when the package's Go-level name is main. -/
def pkgPrefixOf (pkg : GoPackage) : String :=
  if pkg.pkgName = "main" then "main" else pkg.path

/-- The sorted member-name list both loops of `Compiler.Parse` walk. -/
def memberNames (pkg : GoPackage) : List String :=
  sortStrings (pkg.members.map Prod.fst)

/-- Member lookup, standing for indexing the Go member map. -/
def findMember (pkg : GoPackage) (n : String) : Option Member :=
  (pkg.members.find? (fun p => p.1 = n)).map Prod.snd

/-- One observable step of `Compiler.Parse`: a declaration-pass step (a
function declaration, a named-constant global, or a global variable being
emitted) or a definition-pass step (a function body being lowered). -/
inductive ParseEvent where
  | decl (pkg : String) (member : String)
  | defn (pkg : String) (member : String)
deriving DecidableEq

/-- Whether an event is a declaration-pass step. -/
def isDeclEvent : ParseEvent → Bool
  | .decl _ _ => true
  | .defn _ _ => false

/-- The declaration loop of `Compiler.Parse` over one package: every
function, named constant and global member yields a declaration step
(type members emit nothing). -/
def declLoopEvents (pkg : GoPackage) : List ParseEvent :=
  (memberNames pkg).filterMap (fun n =>
    match findMember pkg n with
    | some (.function _) => some (.decl pkg.path n)
    | some (.namedConst _) => some (.decl pkg.path n)
    | some .global => some (.decl pkg.path n)
    | some .typ => none
    | none => none)

/-- The definition loop of `Compiler.Parse` over one package: every
function member with a body is lowered (external functions and non-function
members are skipped). -/
def defnLoopEvents (pkg : GoPackage) : List ParseEvent :=
  (memberNames pkg).filterMap (fun n =>
    match findMember pkg n with
    | some (.function true) => some (.defn pkg.path n)
    | _ => none)

/-- The events of `Compiler.Parse` for one package: its declaration loop
runs to completion, then its definition loop. -/
def parsePackageEvents (pkg : GoPackage) : List ParseEvent :=
  declLoopEvents pkg ++ defnLoopEvents pkg

/-- The events of `Compiler.Parse` for a whole program: the packages are
processed one after another, in the order `program.AllPackages()` returns
them (an order the source itself marks as random across runs). -/
def parseEvents (pkgs : List GoPackage) : List ParseEvent :=
  pkgs.flatMap parsePackageEvents

/-- Whether every declaration step of an event list precedes every
definition step: after the leading declaration steps no declaration step
occurs any more. -/
def declsBeforeDefns (evs : List ParseEvent) : Bool :=
  (evs.dropWhile (fun e => isDeclEvent e)).all (fun e => !(isDeclEvent e))

/-- The Go types `Compiler.parseBuiltin` dispatches print arguments on:
the basic kinds NewCompiler's fragment knows, named types, and pointers. -/
inductive GoType where
  | bool
  | int
  | int32
  | string
  | unsafePointer
  | otherBasic
  | named (underlying : GoType)
  | pointer (elem : GoType)
deriving DecidableEq

/-- A call to one of the four runtime print intrinsics declared in
NewCompiler. -/
inductive RuntimeCall where
  | printString
  | printInt
  | printSpace
  | printNewline
deriving DecidableEq

/-- The per-argument dispatch of the print/println loop: `types.Int` and
`types.Int32` select `__go_printint`, `types.String` selects
`__go_printstring`, any other basic kind is an unknown basic arg type, and
any non-basic type is an unknown arg type. -/
def printArgCall : GoType → Except String RuntimeCall
  | .int => .ok .printInt
  | .int32 => .ok .printInt
  | .string => .ok .printString
  | .bool => .error "unknown basic arg type"
  | .unsafePointer => .error "unknown basic arg type"
  | .otherBasic => .error "unknown basic arg type"
  | _ => .error "unknown arg type"

/-- The argument loop of `Compiler.parseBuiltin` for print/println: a
`__go_printspace` call before every argument after the first, then the
argument's own print call; the first failing argument aborts. -/
def printArgLoop : Nat → List GoType → Except String (List RuntimeCall)
  | _, [] => .ok []
  | i, arg :: rest => do
    let call ← printArgCall arg
    let restCalls ← printArgLoop (i + 1) rest
    .ok ((if 1 ≤ i then [RuntimeCall.printSpace] else []) ++ call :: restCalls)

/-- `Compiler.parseBuiltin` for the print/println built-ins: the argument
loop, then a final `__go_printnl` call for println; other built-ins are
unimplemented. The result lists the runtime print calls in emission
order. -/
def parseBuiltin (name : String) (args : List GoType) :
    Except String (List RuntimeCall) :=
  if name = "print" ∨ name = "println" then do
    let calls ← printArgLoop 0 args
    .ok (calls ++ (if name = "println" then [RuntimeCall.printNewline] else []))
  else .error ("todo: builtin: " ++ name)

/-- Whether an Except result is an error. -/
def isErrResult : Except String (List RuntimeCall) → Bool
  | .error _ => true
  | .ok _ => false

/-- The observable steps of the `Compile` driver. -/
inductive CompileEvent where
  | parseStep
  | printIRStep
  | verifyStep
  | optimizeStep (level : Nat)
  | emitStep
deriving DecidableEq

/-- Whether an event is the IR print. -/
def isPrintIRStep : CompileEvent → Bool
  | .printIRStep => true
  | _ => false

/-- Whether an event is the optimize step. -/
def isOptimizeStep : CompileEvent → Bool
  | .optimizeStep _ => true
  | _ => false

/-- The step sequence of `Compile pkgName outpath target printIR`: parse;
if the -printir flag is set, print the IR (directly after parsing); then,
when parsing succeeded, verify, optimize at level 2, verify again, and
emit the object file, stopping at the first failing step. -/
def compileTrace (printIR parseOk verify1Ok verify2Ok : Bool) :
    List CompileEvent :=
  [CompileEvent.parseStep]
  ++ (if printIR then [CompileEvent.printIRStep] else [])
  ++ (if parseOk then
        [CompileEvent.verifyStep]
        ++ (if verify1Ok then
              [CompileEvent.optimizeStep 2, CompileEvent.verifyStep]
              ++ (if verify2Ok then [CompileEvent.emitStep] else [])
            else [])
      else [])

/-- Whether the IR print only happens after the optimize step: no print
event occurs strictly before the first optimize event. -/
def printAfterOptimize (evs : List CompileEvent) : Bool :=
  (evs.takeWhile (fun e => !(isOptimizeStep e))).all (fun e => !(isPrintIRStep e))

/-- The outcomes of the external effects inside `Compiler.EmitObject`:
the result of `EmitToMemoryBuffer`, whether `os.OpenFile` succeeded, how
many bytes `f.Write` wrote, and the discarded error flags of `f.Write`
and `f.Close`. -/
structure EmitOutcome where
  bufResult : Except String (List Nat)
  openOk : Bool
  written : Nat
  writeErr : Bool
  closeErr : Bool

/-- The return value of `Compiler.EmitObject`: the buffer error and the
open error propagate, but the results of `f.Write` and `f.Close` are
discarded and nil is returned. -/
def emitObjectRet (o : EmitOutcome) : Except String Unit :=
  match o.bufResult with
  | .error e => .error e
  | .ok _ => if o.openOk then .ok () else .error "open failed"

/-- The file content a write leaves behind: `written` bytes of the buffer
from offset 0, with the old content's remaining bytes untouched
(`os.OpenFile` with O_RDWR|O_CREATE and no O_TRUNC keeps bytes past the
written span). -/
def writeAt (old buf : List Nat) (written : Nat) : List Nat :=
  buf.take written ++ old.drop written

/-- The effect of `Compiler.EmitObject` on the file at the output path
(`none` = no file): when the buffer fails or the open fails the path is
untouched; otherwise O_CREATE materializes an empty file if absent and
the written prefix of the buffer overwrites the old content in place. -/
def emitObjectFile (o : EmitOutcome) (old : Option (List Nat)) :
    Option (List Nat) :=
  match o.bufResult with
  | .error _ => old
  | .ok buf =>
    if o.openOk then
      some (writeAt (old.getD []) buf (min o.written buf.length))
    else old

/-- The effect of the whole `Compile` driver on the file at the output
path: nothing before `EmitObject` touches the file, and any failure of
parsing or of either verification returns before `EmitObject` runs. -/
def compileObjectFile (parseOk verify1Ok verify2Ok : Bool) (o : EmitOutcome)
    (old : Option (List Nat)) : Option (List Nat) :=
  if parseOk then
    if verify1Ok then
      if verify2Ok then emitObjectFile o old
      else old
    else old
  else old

/-- The expected print sequence for the per-argument calls `cs`: each call
in order, with a space call between consecutive ones. -/
def printSeq : List RuntimeCall → List RuntimeCall
  | [] => []
  | c :: rest => c :: rest.flatMap (fun r => [RuntimeCall.printSpace, r])

/-- Example package `a` with one bodied function `F`. -/
def pkgA : GoPackage := ⟨"a", "a", [("F", .function true)]⟩

/-- Example package `b` with one bodied function `G`. -/
def pkgB : GoPackage := ⟨"b", "b", [("G", .function true)]⟩

/-- Example package `p` with a named constant listed before a function. -/
def pkgCdeclFirst : GoPackage :=
  ⟨"p", "p", [("A", .namedConst (.int 1)), ("B", .function true)]⟩

/-- The same package `p` with its member list in the opposite order. -/
def pkgCfnFirst : GoPackage :=
  ⟨"p", "p", [("B", .function true), ("A", .namedConst (.int 1))]⟩

/-!
Supporting lemmas, then one theorem per claim (with counterexamples and
witnesses where the claim calls for them).
-/

/-- Wrapping through a signed 64-bit value and truncating to 32 bits is
reduction modulo 2^32. -/
theorem toUint64_int64Val_mod (v : Int) :
    toUint64 (int64Val v) % 2 ^ 32 = (v % (2 : Int) ^ 32).toNat := by
  show ((int64Val v) % (2 : Int) ^ 64).toNat % 2 ^ 32 = (v % (2 : Int) ^ 32).toNat
  have hif : int64Val v = if v % (2 : Int) ^ 64 < 2 ^ 63 then v % (2 : Int) ^ 64
      else v % (2 : Int) ^ 64 - 2 ^ 64 := rfl
  rw [hif]
  norm_num
  split
  · omega
  · omega

/-- Converting a natural number with Go's `uint64` keeps it below 2^64. -/
theorem toUint64_ofNat (L : Nat) : toUint64 (Int.ofNat L) = L % 2 ^ 64 := by
  unfold toUint64
  norm_num
  omega

/-- Every event of the declaration loop is a declaration step. -/
theorem declLoopEvents_all_decl (pkg : GoPackage) :
    ∀ e ∈ declLoopEvents pkg, isDeclEvent e = true := by
  intro e he
  simp only [declLoopEvents, List.mem_filterMap] at he
  obtain ⟨n, _, heq⟩ := he
  rcases hm : findMember pkg n with _ | m <;> rw [hm] at heq
  · cases heq
  · cases m with
    | function hb => injection heq with h; subst h; rfl
    | namedConst v => injection heq with h; subst h; rfl
    | global => injection heq with h; subst h; rfl
    | typ => cases heq

/-- Every event of the definition loop is a definition step. -/
theorem defnLoopEvents_all_defn (pkg : GoPackage) :
    ∀ e ∈ defnLoopEvents pkg, isDeclEvent e = false := by
  intro e he
  simp only [defnLoopEvents, List.mem_filterMap] at he
  obtain ⟨n, _, heq⟩ := he
  rcases hm : findMember pkg n with _ | m <;> rw [hm] at heq
  · cases heq
  · cases m with
    | function hb =>
      cases hb with
      | false => cases heq
      | true => injection heq with h; subst h; rfl
    | namedConst v => cases heq
    | global => cases heq
    | typ => cases heq

/-- A list of declaration steps followed by a list of definition steps has
all declarations before all definitions. -/
theorem declsBeforeDefns_append (l₁ l₂ : List ParseEvent)
    (h₁ : ∀ e ∈ l₁, isDeclEvent e = true) (h₂ : ∀ e ∈ l₂, isDeclEvent e = false) :
    declsBeforeDefns (l₁ ++ l₂) = true := by
  unfold declsBeforeDefns
  induction l₁ with
  | nil =>
    simp only [List.nil_append]
    have hd : (l₂.dropWhile fun e => isDeclEvent e) = l₂ := by
      cases l₂ with
      | nil => rfl
      | cons x xs => simp [List.dropWhile_cons, h₂ x (by simp)]
    rw [hd]
    exact List.all_eq_true.mpr (fun e he => by simp [h₂ e he])
  | cons x xs ih =>
    simp only [List.cons_append, List.dropWhile_cons, h₁ x (by simp)]
    exact ih (fun e he => h₁ e (by simp [he]))

/-- The argument loop from index 1 on: a space call precedes every
argument's own call. -/
theorem printArgLoop_pos (args : List GoType) (cs : List RuntimeCall)
    (h : List.Forall₂ (fun a c => printArgCall a = Except.ok c) args cs) :
    ∀ i : Nat, 1 ≤ i →
      printArgLoop i args = .ok (cs.flatMap (fun r => [RuntimeCall.printSpace, r])) := by
  induction h with
  | nil => intro i hi; rfl
  | cons ha htail ih =>
    intro i hi
    simp only [printArgLoop, ha, if_pos hi]
    rw [ih (i + 1) (by omega)]
    rfl

/-- The argument loop from index 0: no space before the first argument,
one before each later argument. -/
theorem printArgLoop_zero (args : List GoType) (cs : List RuntimeCall)
    (h : List.Forall₂ (fun a c => printArgCall a = Except.ok c) args cs) :
    printArgLoop 0 args = .ok (printSeq cs) := by
  cases h with
  | nil => rfl
  | cons ha htail =>
    simp only [printArgLoop, ha]
    rw [printArgLoop_pos _ _ htail 1 (by omega)]
    rfl

/-- One argument whose type dispatch fails makes the whole loop fail. -/
theorem printArgLoop_err (args : List GoType) (a : GoType) (ha : a ∈ args)
    (e : String) (he : printArgCall a = .error e) :
    ∀ i : Nat, isErrResult (printArgLoop i args) = true := by
  induction args with
  | nil => cases ha
  | cons b rest ih =>
    intro i
    rcases hb : printArgCall b with e2 | c
    · simp only [printArgLoop, hb]
      rfl
    · rcases List.mem_cons.mp ha with h | h
      · subst h; rw [hb] at he; cases he
      · have := ih h (i + 1)
        rcases hrest : printArgLoop (i + 1) rest with e3 | cs
        · simp only [printArgLoop, hb, hrest]
          rfl
        · rw [hrest] at this; cases this

/-- parseBuiltin on println is the argument loop plus a final newline
call. -/
theorem parseBuiltin_println (args : List GoType) :
    parseBuiltin "println" args =
      (printArgLoop 0 args).bind (fun calls => .ok (calls ++ [RuntimeCall.printNewline])) :=
  rfl

/-- parseBuiltin on print is the argument loop with no trailing call. -/
theorem parseBuiltin_print (args : List GoType) :
    parseBuiltin "print" args =
      (printArgLoop 0 args).bind (fun calls => .ok calls) := by
  show (printArgLoop 0 args).bind (fun calls => Except.ok (calls ++ [])) = _
  simp

/-- The length of a resolved incoming list is the number of edges. -/
theorem addIncomingsLoop_length (blocks lower : Nat → Nat) (preds : List Nat) :
    ∀ (i : Nat) (es : List Nat),
      (addIncomingsLoop blocks lower preds i es).length = es.length := by
  intro i es
  induction es generalizing i with
  | nil => rfl
  | cons e es ih => simp [addIncomingsLoop, ih]

/-- Entry `j` of the resolution loop started at index `i` pairs edge `j`
with the block mapped from predecessor `i + j`. -/
theorem addIncomingsLoop_getD (blocks lower : Nat → Nat) (preds : List Nat) :
    ∀ (es : List Nat) (i j : Nat), j < es.length →
      (addIncomingsLoop blocks lower preds i es).getD j (0, 0) =
        (lower (es.getD j 0), blocks (preds.getD (i + j) 0)) := by
  intro es
  induction es with
  | nil => intro i j hj; cases hj
  | cons e es ih =>
    intro i j hj
    cases j with
    | zero => rfl
    | succ j =>
      have := ih (i + 1) j (by simpa using hj)
      simpa [addIncomingsLoop, Nat.add_assoc, Nat.add_comm 1 j] using this

/-- Claim C1 (counterexample): in a two-package program, the first
package's function body is lowered (a definition-pass step) before the
second package's members are declared, so it is not the case that every
declaration-pass step of every package happens before any definition-pass
step: `Compiler.Parse` runs both passes inside the per-package loop. -/
theorem c1_counterexample :
    parseEvents [pkgA, pkgB] =
      [.decl "a" "F", .defn "a" "F", .decl "b" "G", .defn "b" "G"]
    ∧ declsBeforeDefns (parseEvents [pkgA, pkgB]) = false :=
  ⟨by decide, by decide⟩

/-- Claim C1 (amended): within each single package, every declaration-pass
step happens before any definition-pass step of that package; the
cross-package ordering of the original claim does not hold. -/
theorem c1_decls_before_defns_within_package :
    ∀ pkg : GoPackage, declsBeforeDefns (parsePackageEvents pkg) = true := fun pkg =>
  declsBeforeDefns_append _ _ (declLoopEvents_all_decl pkg) (defnLoopEvents_all_defn pkg)

/-- Claim C2: member iteration within a package is order-independent
(sorted), but the emitted event sequence depends on the order in which
`program.AllPackages()` lists the packages — an order the source marks as
random across runs — so byte-identical input does not force identical
output when that order differs. -/
theorem c2_package_order_changes_events :
    parsePackageEvents pkgCdeclFirst = parsePackageEvents pkgCfnFirst
    ∧ parseEvents [pkgA, pkgB] ≠ parseEvents [pkgB, pkgA] :=
  ⟨by decide, by decide⟩

/-- Claim C3: after the pending-φ resolution sweep, a φ whose SSA edge
list matches its block's predecessor list in length has exactly one
incoming pair per predecessor, and the block of incoming pair `i` is the
IR block the frame maps from SSA predecessor `i` (the paired value being
the lowered edge value). -/
theorem c3_phi_incomings_match_preds (blocks lower : Nat → Nat) (phi : PendingPhi)
    (hlen : phi.edges.length = phi.preds.length) :
    (addIncomings blocks lower phi).length = phi.preds.length
    ∧ ∀ i, i < phi.preds.length →
        (addIncomings blocks lower phi).getD i (0, 0) =
          (lower (phi.edges.getD i 0), blocks (phi.preds.getD i 0)) := by
  constructor
  · unfold addIncomings
    rw [addIncomingsLoop_length]
    exact hlen
  · intro i hi
    unfold addIncomings
    have := addIncomingsLoop_getD blocks lower phi.preds phi.edges 0 i (by omega)
    simpa using this

/-- Claim C3 witness: a concrete two-edge φ resolved against concrete
block and value maps. -/
theorem c3_phi_incomings_match_preds_witness :
    (addIncomings (fun b => b + 100) (fun v => v + 1000) ⟨[5, 7], [2, 3]⟩).length = 2
    ∧ (addIncomings (fun b => b + 100) (fun v => v + 1000) ⟨[5, 7], [2, 3]⟩).getD 1 (0, 0)
        = (1007, 103) :=
  ⟨(c3_phi_incomings_match_preds (fun b => b + 100) (fun v => v + 1000)
      ⟨[5, 7], [2, 3]⟩ rfl).1,
    (c3_phi_incomings_match_preds (fun b => b + 100) (fun v => v + 1000)
      ⟨[5, 7], [2, 3]⟩ rfl).2 1 (by decide)⟩

/-- Claim C4 (counterexample): for the literal with bytes 104, 105, the
`.str` global's byte array is 104, 105, 0 — the literal's bytes with a NUL
terminator appended by `CreateGlobalStringPtr` — and not exactly the
literal's bytes, refuting the NUL-unterminated part of the claim. -/
theorem c4_counterexample :
    strGlobalBytes (parseConst (.str [104, 105])) = some [104, 105, 0]
    ∧ strGlobalBytes (parseConst (.str [104, 105])) ≠ some [104, 105] :=
  ⟨rfl, by decide⟩

/-- Claim C4 (amended): a string constant lowers to a constant struct
whose field 0 is the byte length of the source literal (reduced mod 2^32
by the 32-bit length type) and whose field 1 is a pointer to a global byte
array named `.str` holding the literal's bytes followed by one NUL
terminator, so that the first `len` bytes of the array are exactly the
literal. -/
theorem c4_string_constant_layout : ∀ bytes : List Nat,
    parseConst (.str bytes) =
      .ok (.struct [LLVMConst.int stringLenType (bytes.length % 2 ^ 32),
        .globalPtr ⟨".str", bytes ++ [0]⟩])
    ∧ (bytes ++ [0]).take bytes.length = bytes
    ∧ strGlobalName (parseConst (.str bytes)) = some ".str" := by
  intro bytes
  refine ⟨?_, ?_, rfl⟩
  · show Except.ok (LLVMConst.struct
      [LLVMConst.int stringLenType (toUint64 (Int.ofNat bytes.length) % 2 ^ 32),
        LLVMConst.globalPtr ⟨".str", bytes ++ [0]⟩]) = _
    rw [toUint64_ofNat]
    have h : bytes.length % 2 ^ 64 % 2 ^ 32 = bytes.length % 2 ^ 32 :=
      Nat.mod_mod_of_dvd _ (by norm_num)
    rw [h]
  · exact List.take_left bytes [0]

/-- Claim C5: when every argument is of int, int32 or string type, print
and println emit each argument's print call in order with a space call
between consecutive arguments and, for println, a final newline call; an
argument of any other type makes lowering fail; and println on a string
and an int argument emits print_string, print_space, print_int,
print_newline in that order. -/
theorem c5_print_builtin_sequence :
    (∀ (args : List GoType) (cs : List RuntimeCall),
      List.Forall₂ (fun a c => printArgCall a = Except.ok c) args cs →
      parseBuiltin "println" args = .ok (printSeq cs ++ [RuntimeCall.printNewline])
      ∧ parseBuiltin "print" args = .ok (printSeq cs))
    ∧ (∀ (args : List GoType) (a : GoType), a ∈ args →
      a ≠ GoType.int → a ≠ GoType.int32 → a ≠ GoType.string →
      isErrResult (parseBuiltin "println" args) = true)
    ∧ parseBuiltin "println" [GoType.string, GoType.int] =
      .ok [RuntimeCall.printString, RuntimeCall.printSpace,
        RuntimeCall.printInt, RuntimeCall.printNewline] := by
  refine ⟨fun args cs h => ?_, fun args a ha h1 h2 h3 => ?_, rfl⟩
  · rw [parseBuiltin_println, parseBuiltin_print, printArgLoop_zero _ _ h]
    exact ⟨rfl, rfl⟩
  · have he : ∃ e, printArgCall a = .error e := by
      cases a <;> first | (exact ⟨_, rfl⟩) | simp_all
    obtain ⟨e, he⟩ := he
    rw [parseBuiltin_println]
    have := printArgLoop_err args a ha e he 0
    rcases hl : printArgLoop 0 args with e2 | cs
    · rfl
    · rw [hl] at this; cases this

/-- Claim C5 witness: print on a string and an int argument, and println
on a bool argument. -/
theorem c5_print_builtin_sequence_witness :
    parseBuiltin "print" [GoType.string, GoType.int]
      = .ok [RuntimeCall.printString, RuntimeCall.printSpace, RuntimeCall.printInt]
    ∧ isErrResult (parseBuiltin "println" [GoType.bool]) = true :=
  ⟨(c5_print_builtin_sequence.1 [GoType.string, GoType.int]
      [RuntimeCall.printString, RuntimeCall.printInt] (.cons rfl (.cons rfl .nil))).2,
    c5_print_builtin_sequence.2.1 [GoType.bool] GoType.bool (by simp)
      (by decide) (by decide) (by decide)⟩

/-- Claim C6: name qualification returns a raw name containing a dot
unchanged and otherwise prepends the frame's package prefix and a dot; the
package prefix is the import path except that a package whose Go-level
name is main uses the literal prefix main. -/
theorem c6_name_qualification :
    (∀ (fr : Frame) (raw : String), raw.toList.contains '.' = true →
      getPackageRelativeName fr raw = raw)
    ∧ (∀ (fr : Frame) (raw : String), raw.toList.contains '.' = false →
      getPackageRelativeName fr raw = fr.pkgPrefix ++ "." ++ raw)
    ∧ (∀ pkg : GoPackage, pkg.pkgName = "main" → pkgPrefixOf pkg = "main")
    ∧ (∀ pkg : GoPackage, pkg.pkgName ≠ "main" → pkgPrefixOf pkg = pkg.path) := by
  refine ⟨fun fr raw h => ?_, fun fr raw h => ?_, fun pkg h => ?_, fun pkg h => ?_⟩
  · have hne : ¬(raw.toList.contains '.' = false) := by rw [h]; decide
    unfold getPackageRelativeName
    rw [if_neg hne]
  · unfold getPackageRelativeName
    rw [if_pos h]
  · unfold pkgPrefixOf
    rw [if_pos h]
  · unfold pkgPrefixOf
    rw [if_neg h]

/-- Claim C6 witness: a dotted name is left alone, an undotted name is
qualified, and the prefixes of a main and a non-main package. -/
theorem c6_name_qualification_witness :
    getPackageRelativeName ⟨"main", "main.main", fun _ => 0, []⟩ "runtime.foo"
      = "runtime.foo"
    ∧ getPackageRelativeName ⟨"main", "main.main", fun _ => 0, []⟩ "add" = "main.add"
    ∧ pkgPrefixOf ⟨"cmd/hello", "main", []⟩ = "main"
    ∧ pkgPrefixOf ⟨"lib/util", "util", []⟩ = "lib/util" :=
  ⟨c6_name_qualification.1 ⟨"main", "main.main", fun _ => 0, []⟩ "runtime.foo" (by decide),
    c6_name_qualification.2.1 ⟨"main", "main.main", fun _ => 0, []⟩ "add" (by decide),
    c6_name_qualification.2.2.1 ⟨"cmd/hello", "main", []⟩ (by decide),
    c6_name_qualification.2.2.2 ⟨"lib/util", "util", []⟩ (by decide)⟩

/-- Claim C7: with the -printir flag set and parsing succeeding, the IR
print step occurs in the Compile step sequence, but before the optimize
step rather than after it — `Compile` prints directly after `Parse` and
before `Verify` and `Optimize`, contradicting the claim (and the flag's
own help text). -/
theorem c7_printir_before_optimize :
    CompileEvent.printIRStep ∈ compileTrace true true true true
    ∧ printAfterOptimize (compileTrace true true true true) = false
    ∧ compileTrace true true true true =
      [.parseStep, .printIRStep, .verifyStep, .optimizeStep 2, .verifyStep, .emitStep] :=
  ⟨by decide, by decide, by decide⟩

/-- Claim C8 (counterexample): when the first verification fails, a
pre-existing object file at the output path is left in place, and even a
fully successful emit of a one-byte buffer over a three-byte file leaves
the old file's trailing bytes — `EmitObject` opens with O_CREATE and no
O_TRUNC — refuting the claim that no object file remains on failure. -/
theorem c8_counterexample :
    compileObjectFile true false true ⟨.ok [9], true, 1, false, false⟩ (some [1, 2, 3])
      = some [1, 2, 3]
    ∧ compileObjectFile true false true ⟨.ok [9], true, 1, false, false⟩ (some [1, 2, 3])
      ≠ none
    ∧ compileObjectFile true true true ⟨.ok [9], true, 1, false, false⟩ (some [1, 2, 3])
      = some [9, 2, 3] :=
  ⟨rfl, by decide, rfl⟩

/-- Claim C8 (amended): when parsing or either verification fails, or the
buffer emission fails, the file at the output path is left exactly as it
was (so a stale object file persists rather than being removed); and a
successful full write places the buffer's bytes over the old content
without truncating, keeping any old bytes past the buffer's length. -/
theorem c8_failure_preserves_output_path :
    (∀ (parseOk verify1Ok verify2Ok : Bool) (o : EmitOutcome) (old : Option (List Nat)),
      parseOk = false ∨ verify1Ok = false ∨ verify2Ok = false →
      compileObjectFile parseOk verify1Ok verify2Ok o old = old)
    ∧ (∀ (o : EmitOutcome) (old : Option (List Nat)) (e : String),
      o.bufResult = .error e → emitObjectFile o old = old)
    ∧ (∀ buf old : List Nat,
      emitObjectFile ⟨.ok buf, true, buf.length, false, false⟩ (some old)
        = some (buf ++ old.drop buf.length)) := by
  refine ⟨fun p v1 v2 o old h => ?_, fun o old e h => ?_, fun buf old => ?_⟩
  · unfold compileObjectFile
    rcases h with h | h | h <;> subst h <;> simp
  · simp [emitObjectFile, h]
  · simp [emitObjectFile, writeAt]

/-- Claim C8 witness: a failing second verification, a failing buffer
emission, and a successful non-truncating write, each at concrete
inputs. -/
theorem c8_failure_preserves_output_path_witness :
    compileObjectFile true true false ⟨.ok [7], true, 1, false, false⟩ (some [4, 5])
      = some [4, 5]
    ∧ emitObjectFile ⟨.error "emit failed", true, 0, false, false⟩ (some [4, 5])
      = some [4, 5]
    ∧ emitObjectFile ⟨.ok [9], true, 1, false, false⟩ (some [1, 2, 3]) = some [9, 2, 3] :=
  ⟨c8_failure_preserves_output_path.1 true true false ⟨.ok [7], true, 1, false, false⟩
      (some [4, 5]) (Or.inr (Or.inr rfl)),
    c8_failure_preserves_output_path.2.1 ⟨.error "emit failed", true, 0, false, false⟩
      (some [4, 5]) "emit failed" rfl,
    c8_failure_preserves_output_path.2.2 [9] [1, 2, 3]⟩

/-- Claim C9: once the backend produced an object buffer and the output
file opened, `EmitObject` returns nil whatever the write and close did —
their results are discarded — including the concrete case of a write that
reported one byte written out of three and errors from both write and
close, where the file holds one byte yet the return value is success. -/
theorem c9_emitobject_discards_write_errors :
    (∀ (buf : List Nat) (written : Nat) (writeErr closeErr : Bool),
      emitObjectRet ⟨.ok buf, true, written, writeErr, closeErr⟩ = .ok ())
    ∧ emitObjectRet ⟨.ok [1, 2, 3], true, 1, true, true⟩ = .ok ()
    ∧ emitObjectFile ⟨.ok [1, 2, 3], true, 1, true, true⟩ none = some [1] :=
  ⟨fun _ _ _ _ => rfl, rfl, rfl⟩

/-- Claim C10: every integer constant is lowered through a signed 64-bit
value (exactness discarded) to a constant of the 32-bit int IR type whose
value is the source value reduced modulo 2^32, and it is never rejected;
in particular 2^32 + 7 silently becomes 7 and -1 becomes 2^32 - 1. -/
theorem c10_int_constant_reduced_mod_2pow32 :
    (∀ v : Int, parseConst (.int v) = .ok (.int intType (v % (2 : Int) ^ 32).toNat))
    ∧ parseConst (.int ((2 : Int) ^ 32 + 7)) = .ok (.int intType 7)
    ∧ parseConst (.int (-1)) = .ok (.int intType 4294967295) := by
  refine ⟨fun v => ?_, rfl, rfl⟩
  show Except.ok (LLVMConst.int intType (toUint64 (int64Val v) % 2 ^ 32)) = _
  rw [toUint64_int64Val_mod]

end Tgo
